import Mathlib

/-!
Verification of the ANUS framework core components against their
natural-language specification.

The development shallowly embeds the Python sources:
* `anus/core/planning/task_planner.py` (`TaskPlanner`)
* `anus/core/agent/react_agent.py` (`ReactAgent`)
* `anus/core/agent/hybrid_agent.py` (`HybridAgent`)
* `anus/core/memory/short_term.py` (`ShortTermMemory`)

Python dictionaries become association lists, `time.time()` becomes an
explicit `now : Nat` argument threaded through the calls, and the
`uuid.uuid4()` identifier generator becomes a fresh-counter field (distinct
identifiers, increasing with creation order, mirroring distinct uuids drawn
at increasing wall-clock times).
-/

namespace TaskPlanner

/-- A plan step as produced by `_process_plan_data`: every step carries an
`id`, descriptive fields and a `dependencies` list.  Completed steps are the
same dictionaries with `result` and `completed_at` keys added, so the model
keeps those as `Option` fields (absent key = `none`).  `ρ` is the type of
the opaque result payloads stored by `mark_step_complete`. -/
structure Step (ρ : Type) where
  id : String
  name : String := ""
  description : String := ""
  tool : String := ""
  dependencies : List String := []
  result : Option ρ := none
  completed_at : Option Nat := none
deriving Repr, DecidableEq

/-- The plan dictionary built by `_process_plan_data` / updated by `replan`
and `mark_step_complete`.  `metadata_feedback` models `metadata["feedback"]`
(absent key = `none`). -/
structure Plan (ρ : Type) where
  task : String := ""
  status : String := "created"
  reasoning : String := ""
  steps : List (Step ρ) := []
  current_step_index : Nat := 0
  completed_steps : List (Step ρ) := []
  metadata_feedback : Option ρ := none
  completed_at : Option Nat := none
  updated_at : Option Nat := none
deriving Repr, DecidableEq

/-- `[step.get("id") for step in plan.get("completed_steps", [])]`. -/
def completedStepIds {ρ : Type} (plan : Plan ρ) : List String :=
  plan.completed_steps.map (fun step => step.id)

/-- The dependency check shared by `get_next_step` and
`_find_executable_step`: every id in the step's dependency list occurs
among the completed-step ids. -/
def depsSatisfied {ρ : Type} (plan : Plan ρ) (step : Step ρ) : Bool :=
  step.dependencies.all (fun dep_id => (completedStepIds plan).contains dep_id)

/-- `TaskPlanner._find_executable_step`: scan `steps[current_index:]` and
return the first step whose dependencies are all satisfied. -/
def find_executable_step {ρ : Type} (plan : Plan ρ) : Option (Step ρ) :=
  (plan.steps.drop plan.current_step_index).find? (fun step => depsSatisfied plan step)

/-- `TaskPlanner.get_next_step`: return `steps[current_index]` unless it has
a nonempty dependency list with an unsatisfied dependency, in which case
fall back to `_find_executable_step` (or `None`). -/
def get_next_step {ρ : Type} (plan : Plan ρ) : Option (Step ρ) :=
  match (plan.steps.drop plan.current_step_index).head? with
  | none => none
  | some next_step =>
    if next_step.dependencies.isEmpty then some next_step
    else if depsSatisfied plan next_step then some next_step
    else find_executable_step plan

/-- Index of the first step whose id equals `step_id`
(the `for i, step in enumerate(steps)` search in `mark_step_complete`). -/
def findStepIndex {ρ : Type} (steps : List (Step ρ)) (step_id : String) : Option Nat :=
  steps.findIdx? (fun step => step.id == step_id)

/-- `TaskPlanner.mark_step_complete`: record the step's result, append it to
`completed_steps`, advance the cursor when the completed step is the current
one, and flag the plan completed when the cursor passes the end. -/
def mark_step_complete {ρ : Type} (plan : Plan ρ) (step_id : String) (result : ρ)
    (now : Nat) : Plan ρ :=
  match findStepIndex plan.steps step_id with
  | none => plan
  | some step_index =>
    let completed_step :=
      { (plan.steps.getD step_index ⟨"", "", "", "", [], none, none⟩) with
        result := some result, completed_at := some now }
    let completed_steps := plan.completed_steps ++ [completed_step]
    let new_index :=
      if step_index = plan.current_step_index then plan.current_step_index + 1
      else plan.current_step_index
    if new_index ≥ plan.steps.length then
      { plan with completed_steps := completed_steps, current_step_index := new_index,
                  status := "completed", completed_at := some now }
    else
      { plan with completed_steps := completed_steps, current_step_index := new_index }

/-- The success path of `TaskPlanner.replan`: the steps extracted from the
model's JSON answer (`new_steps`, `new_reasoning`) are merged after the
frozen completed steps, the cursor is set to `len(completed_steps)` when
new steps remain and to `0` otherwise, and the feedback is recorded in the
metadata. -/
def replan {ρ : Type} (plan : Plan ρ) (new_steps : List (Step ρ)) (new_reasoning : String)
    (feedback : ρ) (now : Nat) : Plan ρ :=
  let completed_steps := plan.completed_steps
  let merged_steps := completed_steps ++ new_steps
  let new_index :=
    if completed_steps.length < merged_steps.length then completed_steps.length else 0
  { plan with steps := merged_steps, reasoning := new_reasoning,
              updated_at := some now, status := "updated",
              current_step_index := new_index,
              metadata_feedback := some feedback }

end TaskPlanner

namespace TaskPlanner

theorem depsSatisfied_mem {ρ : Type} (plan : Plan ρ) (step : Step ρ)
    (h : depsSatisfied plan step = true) :
    ∀ d ∈ step.dependencies, d ∈ completedStepIds plan := by
  intro d hd
  have hc := List.all_eq_true.mp h d hd
  simpa using hc

/-- C5: whenever `get_next_step` returns a step, every id in that step's
dependency list appears among the ids of the plan's completed steps. -/
theorem get_next_step_deps_completed {ρ : Type} (plan : Plan ρ) (step : Step ρ)
    (h : get_next_step plan = some step) :
    ∀ d ∈ step.dependencies, d ∈ completedStepIds plan := by
  unfold get_next_step at h
  cases hh : (plan.steps.drop plan.current_step_index).head? with
  | none => rw [hh] at h; cases h
  | some next_step =>
    rw [hh] at h
    dsimp only at h
    split_ifs at h with h1 h2
    · cases h
      intro d hd
      rw [List.isEmpty_iff.mp h1] at hd
      cases hd
    · cases h
      exact depsSatisfied_mem _ _ h2
    · exact depsSatisfied_mem plan step (List.find?_some h)

def c5Plan : Plan String :=
  { task := "demo", steps := [{ id := "s2", dependencies := ["s1"] }],
    current_step_index := 0,
    completed_steps := [{ id := "s1", result := some "ok", completed_at := some 1 }] }

def c5Step : Step String := { id := "s2", dependencies := ["s1"] }

theorem get_next_step_deps_completed_witness :
    get_next_step c5Plan = some c5Step ∧ "s1" ∈ completedStepIds c5Plan :=
  ⟨by decide, get_next_step_deps_completed c5Plan c5Step (by decide) "s1" (by decide)⟩

theorem mark_step_complete_none {ρ : Type} (plan : Plan ρ) (step_id : String) (result : ρ)
    (now : Nat) (h : findStepIndex plan.steps step_id = none) :
    mark_step_complete plan step_id result now = plan := by
  unfold mark_step_complete
  rw [h]

theorem mark_step_complete_steps {ρ : Type} (plan : Plan ρ) (step_id : String) (result : ρ)
    (now : Nat) : (mark_step_complete plan step_id result now).steps = plan.steps := by
  unfold mark_step_complete
  cases findStepIndex plan.steps step_id with
  | none => rfl
  | some step_index => dsimp only; split <;> split <;> rfl

theorem mark_step_complete_cursor {ρ : Type} (plan : Plan ρ) (step_id : String) (result : ρ)
    (now : Nat) (step_index : Nat) (h : findStepIndex plan.steps step_id = some step_index) :
    (mark_step_complete plan step_id result now).current_step_index =
      if step_index = plan.current_step_index then plan.current_step_index + 1
      else plan.current_step_index := by
  unfold mark_step_complete
  rw [h]
  dsimp only
  split <;> split <;> rfl

/-- C7: calling `mark_step_complete` a second time with the same step id and
result leaves the current-step cursor where the first call put it. -/
theorem mark_step_complete_idempotent_cursor {ρ : Type} (plan : Plan ρ) (step_id : String)
    (result : ρ) (t1 t2 : Nat) :
    (mark_step_complete (mark_step_complete plan step_id result t1) step_id result
        t2).current_step_index =
      (mark_step_complete plan step_id result t1).current_step_index := by
  cases h : findStepIndex plan.steps step_id with
  | none =>
    rw [mark_step_complete_none plan step_id result t1 h,
      mark_step_complete_none plan step_id result t2 h]
  | some step_index =>
    have h' : findStepIndex (mark_step_complete plan step_id result t1).steps step_id
        = some step_index := by
      rw [mark_step_complete_steps]; exact h
    rw [mark_step_complete_cursor _ step_id result t2 step_index h',
      mark_step_complete_cursor plan step_id result t1 step_index h]
    split_ifs with ha hb <;> omega

/-- C10: `mark_step_complete` with a step id absent from the plan's step
list returns the plan unchanged. -/
theorem mark_step_complete_missing_id {ρ : Type} (plan : Plan ρ) (step_id : String)
    (result : ρ) (now : Nat) (h : ∀ s ∈ plan.steps, s.id ≠ step_id) :
    mark_step_complete plan step_id result now = plan := by
  have hn : findStepIndex plan.steps step_id = none := by
    rw [findStepIndex, List.findIdx?_eq_none_iff]
    intro s hs
    simpa using h s hs
  exact mark_step_complete_none plan step_id result now hn

theorem mark_step_complete_missing_id_witness :
    (∀ s ∈ c5Plan.steps, s.id ≠ "zz") ∧
      mark_step_complete c5Plan "zz" "r" 7 = c5Plan :=
  ⟨by decide, mark_step_complete_missing_id c5Plan "zz" "r" 7 (by decide)⟩

def c9Plan : Plan String :=
  { task := "demo", status := "created",
    steps := [{ id := "s1", name := "a" }],
    current_step_index := 1,
    completed_steps := [{ id := "s1", name := "a", result := some "r1", completed_at := some 1 }] }

/-- C9 counterexample: replanning `c9Plan` (one completed step) when the
model returns an empty remaining-step list resets the cursor to `0`, not to
the number of completed steps. -/
theorem replan_cursor_not_completed_count :
    ¬ ((replan c9Plan [] "rsn" "fb" 5).current_step_index
        = c9Plan.completed_steps.length) := by
  decide

/-- C9 (amended): when replanning generates at least one new step, the
resulting plan is the frozen completed steps followed by the new steps, the
cursor sits at the frozen/new boundary, the status is `"updated"` and the
feedback is recorded in the metadata. -/
theorem replan_merges_frozen_steps {ρ : Type} (plan : Plan ρ) (new_steps : List (Step ρ))
    (new_reasoning : String) (feedback : ρ) (now : Nat) (h : new_steps ≠ []) :
    (replan plan new_steps new_reasoning feedback now).steps
        = plan.completed_steps ++ new_steps ∧
    (replan plan new_steps new_reasoning feedback now).current_step_index
        = plan.completed_steps.length ∧
    (replan plan new_steps new_reasoning feedback now).status = "updated" ∧
    (replan plan new_steps new_reasoning feedback now).metadata_feedback = some feedback := by
  have hlt : plan.completed_steps.length < (plan.completed_steps ++ new_steps).length := by
    rw [List.length_append]
    have := List.length_pos.mpr h
    omega
  refine ⟨rfl, ?_, rfl, rfl⟩
  simp only [replan]
  rw [if_pos hlt]

theorem replan_merges_frozen_steps_witness :
    ([({ id := "s2" } : Step String)] ≠ []) ∧
      (replan c9Plan [{ id := "s2" }] "rsn" "fb" 5).current_step_index
        = c9Plan.completed_steps.length :=
  ⟨by decide,
    (replan_merges_frozen_steps c9Plan [{ id := "s2" }] "rsn" "fb" 5 (by decide)).2.1⟩

end TaskPlanner

namespace ReactAgent

/-- The `context` dictionary of `ReactAgent.execute`: the task plus the
`thoughts`, `actions` and `observations` lists that each iteration appends
to.  `τ`, `α`, `ω` are the (opaque) thought, action and observation
payloads. -/
structure RContext (τ α ω : Type) where
  task : String
  thoughts : List τ
  actions : List α
  observations : List ω

/-- A `ReactAgent` (or any subclass): `max_iterations` together with the
overridable methods `_generate_thought`, `_decide_action`,
`_execute_action` and `_should_terminate`.  The methods receive the current
context and `self.current_iteration`; the termination predicate is an
arbitrary function, covering every possible subclass override. -/
structure Agent (τ α ω : Type) where
  max_iterations : Nat
  generate_thought : RContext τ α ω → Nat → τ
  decide_action : RContext τ α ω → Nat → α
  execute_action : α → ω
  should_terminate : RContext τ α ω → Nat → Bool

/-- One think-decide-act-observe loop body of `ReactAgent.execute`. -/
def runBody {τ α ω : Type} (A : Agent τ α ω) (ctx : RContext τ α ω) (it : Nat) :
    RContext τ α ω :=
  let thought := A.generate_thought ctx it
  let ctx1 := { ctx with thoughts := ctx.thoughts ++ [thought] }
  let action := A.decide_action ctx1 it
  let ctx2 := { ctx1 with actions := ctx1.actions ++ [action] }
  let observation := A.execute_action action
  { ctx2 with observations := ctx2.observations ++ [observation] }

/-- The `while current_iteration < max_iterations` loop of
`ReactAgent.execute`, with `fuel = max_iterations - current_iteration`
(so the loop guard `it < max_iterations` is exactly `fuel > 0`).
Returns the final `current_iteration`, the number of loop-body runs
performed, and the final context. -/
def executeLoop {τ α ω : Type} (A : Agent τ α ω) :
    Nat → Nat → RContext τ α ω → Nat × Nat × RContext τ α ω
  | 0, it, ctx => (it, 0, ctx)
  | fuel + 1, it, ctx =>
    let ctx1 := runBody A ctx it
    if A.should_terminate ctx1 it then (it, 1, ctx1)
    else
      let r := executeLoop A fuel (it + 1) ctx1
      (r.1, r.2.1 + 1, r.2.2)

/-- The result of `ReactAgent.execute`: the reported `iterations` counter,
the number of think-decide-act-observe iterations actually performed, and
the final context. -/
structure ExecResult (τ α ω : Type) where
  iterations : Nat
  body_runs : Nat
  context : RContext τ α ω

/-- `ReactAgent.execute`: reset the iteration counter, run the React loop
starting from the fresh context, and report the final counter. -/
def execute {τ α ω : Type} (A : Agent τ α ω) (task : String) : ExecResult τ α ω :=
  let ctx0 : RContext τ α ω := ⟨task, [], [], []⟩
  let r := executeLoop A A.max_iterations 0 ctx0
  ⟨r.1, r.2.1, r.2.2⟩

theorem executeLoop_body_runs_le {τ α ω : Type} (A : Agent τ α ω) :
    ∀ (fuel it : Nat) (ctx : RContext τ α ω), (executeLoop A fuel it ctx).2.1 ≤ fuel := by
  intro fuel
  induction fuel with
  | zero => intro it ctx; simp [executeLoop]
  | succ n ih =>
    intro it ctx
    simp only [executeLoop]
    split
    · simp
    · simpa using Nat.succ_le_succ (ih (it + 1) (runBody A ctx it))

theorem executeLoop_iterations_le {τ α ω : Type} (A : Agent τ α ω) :
    ∀ (fuel it : Nat) (ctx : RContext τ α ω), (executeLoop A fuel it ctx).1 ≤ it + fuel := by
  intro fuel
  induction fuel with
  | zero => intro it ctx; simp [executeLoop]
  | succ n ih =>
    intro it ctx
    simp only [executeLoop]
    split
    · omega
    · have := ih (it + 1) (runBody A ctx it)
      omega

/-- C4: for every agent configuration (any `max_iterations`, any
termination predicate, any method overrides) and every task, one `execute`
run performs at most `max_iterations` think-decide-act-observe iterations
(and the reported iteration counter is likewise bounded); `execute` is a
total function, so it always terminates. -/
theorem execute_terminates_within_max {τ α ω : Type} (A : Agent τ α ω) (task : String) :
    (execute A task).body_runs ≤ A.max_iterations ∧
      (execute A task).iterations ≤ A.max_iterations := by
  constructor
  · exact executeLoop_body_runs_le A A.max_iterations 0 ⟨task, [], [], []⟩
  · simpa using executeLoop_iterations_le A A.max_iterations 0 ⟨task, [], [], []⟩

end ReactAgent

namespace HybridAgent

/-- A subtask produced by `HybridAgent._decompose_task`: an id
(`subtask-{i+1}`), the role it is assigned to, and its description. -/
structure Subtask where
  id : String
  role : String
  description : String
deriving Repr, DecidableEq

/-- A sub-result dictionary as stored in `results[subtask_id]` by
`_execute_multi`: `answer = none` models a dictionary without an
`"answer"` key (such as the error entry written for a missing role). -/
structure SubResult where
  answer : Option String := none
  status : String := ""
  error : String := ""
deriving Repr, DecidableEq

/-- Lookup in the `results` dictionary (`subtask_id in results`). -/
def lookupResult (results : List (String × SubResult)) (id : String) : Option SubResult :=
  (results.find? (fun e => e.1 == id)).map (fun e => e.2)

/-- `HybridAgent._aggregate_results`: walk the subtasks in decomposition
order, collect `"[role]: answer"` for every sub-result that has an answer,
and join the collected strings with blank lines. -/
def aggregate_results (subtasks : List Subtask)
    (results : List (String × SubResult)) : SubResult :=
  let answers := subtasks.filterMap (fun st =>
    match lookupResult results st.id with
    | some r =>
      match r.answer with
      | some a => some ("[" ++ st.role ++ "]: " ++ a)
      | none => none
    | none => none)
  { answer := some (String.intercalate "\n\n" answers), status := "success" }

/-- The fixed role order named by the spec sentence:
researcher, planner, executor/coder, critic. -/
def roleRank (role : String) : Nat :=
  if role == "researcher" then 0
  else if role == "planner" then 1
  else if role == "executor" || role == "coder" then 2
  else if role == "critic" then 3
  else 4

/-- Stable insertion of a subtask into a list sorted by `roleRank`. -/
def insertByRank (st : Subtask) : List Subtask → List Subtask
  | [] => [st]
  | b :: l =>
    if roleRank st.role < roleRank b.role then st :: b :: l
    else b :: insertByRank st l

/-- Stable sort of the subtasks by the fixed role order. -/
def sortByRank : List Subtask → List Subtask
  | [] => []
  | a :: l => insertByRank a (sortByRank l)

/-- Modelled from the spec's words, not from the code: the aggregation the
claim describes, which reorders the subtasks by the fixed role order
(researcher, planner, executor/coder, critic) before collecting the
answers.  Stated only to compare against `aggregate_results`. -/
def aggregate_results_role_order (subtasks : List Subtask)
    (results : List (String × SubResult)) : SubResult :=
  let ordered := sortByRank subtasks
  let answers := ordered.filterMap (fun st =>
    match lookupResult results st.id with
    | some r =>
      match r.answer with
      | some a => some ("[" ++ st.role ++ "]: " ++ a)
      | none => none
    | none => none)
  { answer := some (String.intercalate "\n\n" answers), status := "success" }

def c6Subtasks : List Subtask :=
  [{ id := "subtask-1", role := "critic", description := "dc" },
   { id := "subtask-2", role := "researcher", description := "dr" }]

def c6Results : List (String × SubResult) :=
  [("subtask-1", { answer := some "CA" }), ("subtask-2", { answer := some "RA" })]

/-- C6 counterexample: when a critic subtask precedes a researcher subtask
in decomposition order and both succeed, the code concatenates the critic's
answer first, not in the fixed role order the claim states. -/
theorem aggregate_results_not_role_ordered :
    aggregate_results c6Subtasks c6Results
      ≠ aggregate_results_role_order c6Subtasks c6Results := by
  decide

/-- Lookup of a registered specialized agent (`role in self.specialized_agents`).
An agent is modelled by its answer function `description ↦ answer`, since
`ToolAgent.execute` always returns a dictionary with an `"answer"` key. -/
def lookupAgent (agents : List (String × (String → String))) (role : String) :
    Option (String → String) :=
  (agents.find? (fun e => e.1 == role)).map (fun e => e.2)

/-- The `results` dictionary built by the dispatch loop of
`HybridAgent._execute_multi`: a subtask whose role has a registered agent
stores that agent's execution result; a missing role stores an error entry
(no `"answer"` key) for that subtask id and the loop continues. -/
def execute_multi_results (agents : List (String × (String → String)))
    (subtasks : List Subtask) : List (String × SubResult) :=
  subtasks.map (fun st =>
    match lookupAgent agents st.role with
    | some f => (st.id, { answer := some (f st.description) })
    | none => (st.id, { status := "error",
                        error := "No agent available for role: " ++ st.role }))

theorem lookupResult_cons_ne (key : String) (r : SubResult)
    (results : List (String × SubResult)) (id : String) (h : key ≠ id) :
    lookupResult ((key, r) :: results) id = lookupResult results id := by
  unfold lookupResult
  rw [List.find?_cons_of_neg]
  simp [h]

theorem execute_multi_collect (agents : List (String × (String → String))) :
    ∀ (subtasks : List Subtask), (subtasks.map Subtask.id).Nodup →
    (subtasks.filterMap (fun st =>
      match lookupResult (execute_multi_results agents subtasks) st.id with
      | some r =>
        match r.answer with
        | some a => some ("[" ++ st.role ++ "]: " ++ a)
        | none => none
      | none => none))
    = subtasks.filterMap (fun st =>
        (lookupAgent agents st.role).map
          (fun f => "[" ++ st.role ++ "]: " ++ f st.description)) := by
  intro subtasks
  induction subtasks with
  | nil => intro _; rfl
  | cons st rest ih =>
    intro hnd
    rw [List.map_cons, List.nodup_cons] at hnd
    obtain ⟨hst, hrest⟩ := hnd
    have hshift : ∀ st' ∈ rest,
        lookupResult (execute_multi_results agents (st :: rest)) st'.id
          = lookupResult (execute_multi_results agents rest) st'.id := by
      intro st' hst'
      have hne : st.id ≠ st'.id := by
        intro he
        exact hst (he ▸ List.mem_map_of_mem Subtask.id hst')
      unfold execute_multi_results
      rw [List.map_cons]
      cases lookupAgent agents st.role <;>
        exact lookupResult_cons_ne _ _ _ _ hne
    have hhead : lookupResult (execute_multi_results agents (st :: rest)) st.id
        = some (match lookupAgent agents st.role with
                | some f => { answer := some (f st.description) }
                | none => { status := "error",
                            error := "No agent available for role: " ++ st.role }) := by
      unfold execute_multi_results lookupResult
      rw [List.map_cons]
      cases lookupAgent agents st.role <;> simp [List.find?_cons_of_pos]
    rw [List.filterMap_cons, List.filterMap_cons, hhead]
    have htail : rest.filterMap (fun st' =>
        match lookupResult (execute_multi_results agents (st :: rest)) st'.id with
        | some r =>
          match r.answer with
          | some a => some ("[" ++ st'.role ++ "]: " ++ a)
          | none => none
        | none => none)
      = rest.filterMap (fun st' =>
          (lookupAgent agents st'.role).map
            (fun f => "[" ++ st'.role ++ "]: " ++ f st'.description)) := by
      rw [List.filterMap_congr (fun st' hst' => by rw [hshift st' hst'])]
      exact ih hrest
    cases lookupAgent agents st.role <;> simp [htail]

/-- C6 (amended): in multi-agent execution the aggregated final answer is
the blank-line concatenation, in decomposition order (not the fixed role
order), of each registered role's answer prefixed by its role; subtask ids
whose role has no registered agent receive an error entry that is omitted
from the aggregation without aborting the others. -/
theorem execute_multi_aggregate_order (agents : List (String × (String → String)))
    (subtasks : List Subtask) (h : (subtasks.map Subtask.id).Nodup) :
    aggregate_results subtasks (execute_multi_results agents subtasks)
      = { answer := some (String.intercalate "\n\n"
            (subtasks.filterMap (fun st =>
              (lookupAgent agents st.role).map
                (fun f => "[" ++ st.role ++ "]: " ++ f st.description)))),
          status := "success" } := by
  unfold aggregate_results
  rw [execute_multi_collect agents subtasks h]

theorem execute_multi_aggregate_order_witness :
    (c6Subtasks.map Subtask.id).Nodup ∧
      aggregate_results c6Subtasks
          (execute_multi_results [("critic", fun d => "CA:" ++ d)] c6Subtasks)
        = { answer := some "[critic]: CA:dc", status := "success" } := by
  constructor
  · decide
  · rw [execute_multi_aggregate_order [("critic", fun d => "CA:" ++ d)] c6Subtasks
      (by decide)]
    rfl

end HybridAgent

namespace HybridAgent

/-- The mode-relevant configuration of a `HybridAgent`: the configured
`mode`, the `complexity_threshold` (default 7), the keys of
`self.specialized_agents`, and `_analyze_task_complexity` abstracted as a
rational-valued scoring function (the Python heuristic computes a float
from word count and keyword hits). -/
structure AgentConfig where
  mode : String
  complexity_threshold : ℚ
  specialized_roles : List String
  complexity : String → ℚ

/-- `HybridAgent._determine_mode`: multi-agent mode exactly when the
complexity score reaches the threshold and some specialized agent is
registered. -/
def determine_mode (A : AgentConfig) (task : String) : String :=
  if A.complexity_threshold ≤ A.complexity task ∧ A.specialized_roles ≠ [] then "multi"
  else "single"

/-- Which execution path `HybridAgent.execute` takes:
`single task` is `_execute_single`, i.e. exactly one Execution Loop
(`ToolAgent`/`ReactAgent.execute`) on the raw task text with no
specialized-agent dispatch; `multi task` is `_execute_multi`. -/
inductive ExecPath where
  | single (task : String)
  | multi (task : String)
deriving Repr, DecidableEq

/-- The dispatch logic of `HybridAgent.execute`: resolve the mode (kwargs
override, then `_determine_mode` when the mode is `"auto"`), then run
single-agent execution when the mode is `"single"` or no specialized
agents are registered, and multi-agent execution otherwise. -/
def hybrid_execute_path (A : AgentConfig) (task : String)
    (mode_override : Option String) : ExecPath :=
  let mode0 := mode_override.getD A.mode
  let mode := if mode0 == "auto" then determine_mode A task else mode0
  if mode == "single" || A.specialized_roles.isEmpty then ExecPath.single task
  else ExecPath.multi task

/-- C8: in auto mode (no kwargs override), a task scoring below the
threshold — or any task when no specialized agents are registered — is
executed through exactly one Execution Loop on the raw task text, with no
specialized agent dispatched. -/
theorem execute_auto_single (A : AgentConfig) (task : String)
    (hmode : A.mode = "auto")
    (h : A.complexity task < A.complexity_threshold ∨ A.specialized_roles = []) :
    hybrid_execute_path A task none = ExecPath.single task := by
  unfold hybrid_execute_path determine_mode
  rcases h with hlt | hroles
  · have : ¬ (A.complexity_threshold ≤ A.complexity task ∧ A.specialized_roles ≠ []) := by
      intro hc
      exact absurd hc.1 (not_le.mpr hlt)
    simp [hmode, this]
  · have : ¬ (A.complexity_threshold ≤ A.complexity task ∧ A.specialized_roles ≠ []) := by
      intro hc
      exact hc.2 hroles
    simp [hmode, this]

def c8Agent : AgentConfig :=
  { mode := "auto", complexity_threshold := 7,
    specialized_roles := ["researcher", "planner"],
    complexity := fun _ => 2 }

theorem execute_auto_single_witness :
    c8Agent.mode = "auto" ∧ c8Agent.complexity "list files" < c8Agent.complexity_threshold ∧
      hybrid_execute_path c8Agent "list files" none = ExecPath.single "list files" :=
  ⟨rfl, by decide,
    execute_auto_single c8Agent "list files" rfl (Or.inl (by decide))⟩

end HybridAgent

namespace ShortTermMemory

/-- Identifiers stand for the distinct `uuid.uuid4()` strings; the model
draws them from a fresh counter, so identifiers are distinct and increase
in creation order (mirroring distinct uuids drawn over time). -/
abbrev Ident := Nat

/-- A stored item: a Python dictionary with string keys and values. -/
abbrev Item := List (String × String)

/-- The `ShortTermMemory` state: `items`, `access_times` and
`creation_times` are dictionaries keyed by identifier, `lru_queue` is the
`heapq` priority queue of `(push_time, identifier)` tuples, and `counter`
generates fresh identifiers. -/
structure STM where
  capacity : Nat
  ttl : Nat
  items : List (Ident × Item)
  access_times : List (Ident × Nat)
  creation_times : List (Ident × Nat)
  lru_queue : List (Nat × Ident)
  counter : Ident
deriving Repr, DecidableEq

/-- `ShortTermMemory.__init__`. -/
def init (capacity ttl : Nat) : STM :=
  { capacity := capacity, ttl := ttl, items := [], access_times := [],
    creation_times := [], lru_queue := [], counter := 0 }

/-- Dictionary read `d.get(k)` / `k in d`. -/
def lookup {β : Type} (l : List (Ident × β)) (id : Ident) : Option β :=
  (l.find? (fun e => e.1 == id)).map (fun e => e.2)

/-- `k in d`. -/
def containsKey {β : Type} (l : List (Ident × β)) (id : Ident) : Bool :=
  (lookup l id).isSome

/-- Dictionary write `d[k] = v`: update the existing entry in place, or
append a new entry. -/
def setKey {β : Type} (l : List (Ident × β)) (id : Ident) (v : β) : List (Ident × β) :=
  if containsKey l id then l.map (fun e => if e.1 == id then (id, v) else e)
  else l ++ [(id, v)]

/-- Dictionary removal `del d[k]`. -/
def eraseKey {β : Type} (l : List (Ident × β)) (id : Ident) : List (Ident × β) :=
  l.filter (fun e => !(e.1 == id))

/-- `ShortTermMemory.delete`: remove the identifier from the three
dictionaries if present (the LRU queue keeps its stale entry as a
tombstone), returning whether anything was deleted. -/
def delete (s : STM) (identifier : Ident) : STM × Bool :=
  if containsKey s.items identifier then
    ({ s with items := eraseKey s.items identifier,
              access_times := eraseKey s.access_times identifier,
              creation_times := eraseKey s.creation_times identifier }, true)
  else (s, false)

/-- `ShortTermMemory._prune_expired` at wall-clock time `now`: collect the
identifiers whose age exceeds the TTL, then delete each. -/
def prune_expired (s : STM) (now : Nat) : STM :=
  let expired := s.creation_times.filterMap
    (fun e => if now - e.2 > s.ttl then some e.1 else none)
  expired.foldl (fun st id => (delete st id).1) s

/-- Lexicographic comparison of `(time, identifier)` tuples, as `heapq`
compares them. -/
def pairLe (a b : Nat × Ident) : Bool :=
  a.1 < b.1 || (a.1 == b.1 && a.2 ≤ b.2)

/-- The smallest `(time, identifier)` tuple in the heap (what
`heapq.heappop` returns). -/
def findMin : List (Nat × Ident) → Option (Nat × Ident)
  | [] => none
  | e :: l =>
    match findMin l with
    | none => some e
    | some m => if pairLe e m then some e else some m

/-- The pop loop of `ShortTermMemory._evict_lru`: pop `(time, identifier)`
tuples in heap order, skip identifiers no longer stored (tombstones), and
delete the first stored one.  Each pop removes one tuple, so the initial
queue length is enough fuel for the whole loop. -/
def evictAux : Nat → STM → STM
  | 0, s => s
  | fuel + 1, s =>
    match findMin s.lru_queue with
    | none => s
    | some m =>
      let s' := { s with lru_queue := s.lru_queue.erase m }
      if containsKey s.items m.2 then (delete s' m.2).1
      else evictAux fuel s'

/-- `ShortTermMemory._evict_lru`. -/
def evict_lru (s : STM) : STM := evictAux s.lru_queue.length s

/-- `ShortTermMemory.add` at wall-clock time `now`: prune, store the item
under a fresh identifier with `now` as both access and creation time, push
`(now, identifier)` onto the LRU queue, and evict the least-recently-used
entry when over capacity.  Returns the new identifier. -/
def add (s : STM) (item : Item) (now : Nat) : STM × Ident :=
  let s1 := prune_expired s now
  let identifier := s1.counter
  let s2 := { s1 with
    items := setKey s1.items identifier item,
    access_times := setKey s1.access_times identifier now,
    creation_times := setKey s1.creation_times identifier now,
    lru_queue := s1.lru_queue ++ [(now, identifier)],
    counter := s1.counter + 1 }
  let s3 := if s2.items.length > s2.capacity then evict_lru s2 else s2
  (s3, identifier)

/-- `ShortTermMemory.get` at wall-clock time `now`: prune, then return the
item and refresh its access time (the docstring: "Updates the access time
of the item to prevent it from being evicted"). -/
def get (s : STM) (identifier : Ident) (now : Nat) : STM × Option Item :=
  let s1 := prune_expired s now
  match lookup s1.items identifier with
  | none => (s1, none)
  | some item =>
    ({ s1 with access_times := setKey s1.access_times identifier now }, some item)

/-- `ShortTermMemory.update` at wall-clock time `now`: prune, then replace
the stored item and refresh its access time if present. -/
def update (s : STM) (identifier : Ident) (item : Item) (now : Nat) : STM × Bool :=
  let s1 := prune_expired s now
  if containsKey s1.items identifier then
    ({ s1 with items := setKey s1.items identifier item,
               access_times := setKey s1.access_times identifier now }, true)
  else (s1, false)

/-- `query` matches `item` when every query field is present in the item
with an equal value. -/
def matchesQuery (query item : Item) : Bool :=
  query.all (fun kv =>
    match item.find? (fun e => e.1 == kv.1) with
    | some e => e.2 == kv.2
    | none => false)

/-- One entry of the `search` result list. -/
structure SearchResult where
  id : Ident
  item : Item
  created_at : Nat
deriving Repr, DecidableEq

/-- The match loop of `ShortTermMemory.search`: walk the items in
dictionary order, refresh the access time of each match, collect up to
`remaining` results (Python appends the match before testing
`len(results) >= limit`).  Returns the updated access times and the
collected results. -/
def searchLoop (query : Item) (now : Nat) (creation : List (Ident × Nat)) :
    List (Ident × Item) → List (Ident × Nat) → Nat →
      List (Ident × Nat) × List SearchResult
  | [], access, _remaining => (access, [])
  | (id, item) :: rest, access, remaining =>
    if matchesQuery query item then
      let access' := setKey access id now
      let r : SearchResult := ⟨id, item, (lookup creation id).getD 0⟩
      if remaining ≤ 1 then (access', [r])
      else
        let p := searchLoop query now creation rest access' (remaining - 1)
        (p.1, r :: p.2)
    else searchLoop query now creation rest access remaining

/-- Stable insertion of a result into a list sorted by `created_at`
descending (Python's stable `sort(..., reverse=True)`). -/
def insertByCreated (r : SearchResult) : List SearchResult → List SearchResult
  | [] => [r]
  | b :: l =>
    if b.created_at < r.created_at then r :: b :: l else b :: insertByCreated r l

/-- Stable sort by `created_at` descending. -/
def sortByCreated : List SearchResult → List SearchResult
  | [] => []
  | a :: l => insertByCreated a (sortByCreated l)

/-- `ShortTermMemory.search` at wall-clock time `now`. -/
def search (s : STM) (query : Item) (limit : Nat) (now : Nat) :
    STM × List SearchResult :=
  let s1 := prune_expired s now
  let p := searchLoop query now s1.creation_times s1.items s1.access_times limit
  ({ s1 with access_times := p.1 }, sortByCreated p.2)

end ShortTermMemory

namespace ShortTermMemory

/-- Capacity-2 store after `add(A)` at time 0, `add(B)` at time 1 and
`get(A)` at time 2 (identifiers 0 and 1). -/
def c1Mem : STM :=
  (get ((add ((add (init 2 3600) [("name", "A")] 0).1) [("name", "B")] 1).1) 0 2).1

/-- The same store after `add(C)` at time 3, which exceeds the capacity and
triggers `_evict_lru`. -/
def c1Final : STM := (add c1Mem [("name", "C")] 3).1

/-- C1: evaluation of the failing input.  After `get(A)` refreshes item 0's
access time (2, newer than item 1's access time 1), the capacity-triggered
eviction of `add(C)` still removes the just-accessed item 0 and keeps
item 1: `_evict_lru` pops the insertion-time heap entries, which `get`
never refreshes, so the recorded access times are ignored. -/
theorem evict_removes_just_accessed_item :
    lookup c1Mem.access_times 0 = some 2 ∧
    lookup c1Mem.access_times 1 = some 1 ∧
    lookup c1Final.items 0 = none ∧
    containsKey c1Final.items 1 = true ∧
    containsKey c1Final.items 2 = true := by
  decide

/-- Store with capacity 10 and TTL 1 holding items 0 and 1, both created at
time 0. -/
def c3Mem : STM :=
  (add ((add (init 10 1) [("name", "A")] 0).1) [("name", "B")] 0).1

/-- C3 counterexample: at conceptual time 5, item 0's age (5) exceeds the
TTL (1), yet the public call `delete(1)` leaves item 0 stored: `delete`
performs no pruning. -/
theorem delete_retains_expired_item :
    (5 : Nat) - ((lookup c3Mem.creation_times 0).getD 0) > c3Mem.ttl ∧
    (delete c3Mem 1).2 = true ∧
    containsKey (delete c3Mem 1).1.items 0 = true := by
  decide

theorem containsKey_iff {β : Type} {l : List (Ident × β)} {j : Ident} :
    containsKey l j = true ↔ ∃ x ∈ l, x.1 = j := by
  unfold containsKey lookup
  rw [Option.isSome_map', List.find?_isSome]
  simp

theorem mem_eraseKey {β : Type} {l : List (Ident × β)} {id : Ident} {e : Ident × β} :
    e ∈ eraseKey l id ↔ e ∈ l ∧ ¬ (e.1 = id) := by
  simp [eraseKey, List.mem_filter]

/-- Well-formedness tying the dictionaries together: every identifier with
a recorded creation time is stored in `items` (Python's `ShortTermMemory`
maintains the three dictionaries in lockstep). -/
def keyConsistent (s : STM) : Prop :=
  ∀ e ∈ s.creation_times, containsKey s.items e.1 = true

instance (s : STM) : Decidable (keyConsistent s) :=
  inferInstanceAs (Decidable (∀ e ∈ s.creation_times, containsKey s.items e.1 = true))

theorem delete_keyConsistent (s : STM) (id : Ident) (h : keyConsistent s) :
    keyConsistent (delete s id).1 := by
  unfold delete
  split
  · intro e he
    dsimp only at he ⊢
    obtain ⟨he1, hne⟩ := mem_eraseKey.mp he
    obtain ⟨x, hx, hx1⟩ := containsKey_iff.mp (h e he1)
    exact containsKey_iff.mpr ⟨x, mem_eraseKey.mpr ⟨hx, by rw [hx1]; exact hne⟩, hx1⟩
  · exact h

theorem delete_creation_subset (s : STM) (id : Ident) :
    ∀ e ∈ (delete s id).1.creation_times, e ∈ s.creation_times := by
  unfold delete
  split
  · intro e he
    exact (mem_eraseKey.mp he).1
  · intro e he
    exact he

/-- The identifiers `_prune_expired` collects for deletion. -/
def expiredIds (s : STM) (now : Nat) : List Ident :=
  s.creation_times.filterMap (fun e => if now - e.2 > s.ttl then some e.1 else none)

theorem prune_expired_def (s : STM) (now : Nat) :
    prune_expired s now = (expiredIds s now).foldl (fun st id => (delete st id).1) s := rfl

theorem foldl_delete_mem (ids : List Ident) :
    ∀ (st : STM), keyConsistent st →
      ∀ e ∈ (ids.foldl (fun st id => (delete st id).1) st).creation_times,
        e ∈ st.creation_times ∧ e.1 ∉ ids := by
  induction ids with
  | nil =>
    intro st _ e he
    exact ⟨he, by simp⟩
  | cons id ids ih =>
    intro st hc e he
    rw [List.foldl_cons] at he
    obtain ⟨he', hnotin⟩ := ih (delete st id).1 (delete_keyConsistent st id hc) e he
    have hmem : e ∈ st.creation_times := delete_creation_subset st id e he'
    refine ⟨hmem, ?_⟩
    intro hin
    rcases List.mem_cons.mp hin with h1 | h2
    · by_cases hck : containsKey st.items id = true
      · unfold delete at he'
        rw [if_pos hck] at he'
        dsimp only at he'
        exact (mem_eraseKey.mp he').2 h1
      · unfold delete at he'
        rw [if_neg hck] at he'
        exact hck (h1 ▸ hc e hmem)
    · exact hnotin h2

theorem prune_expired_creation_bound (s : STM) (now : Nat) (hc : keyConsistent s) :
    ∀ e ∈ (prune_expired s now).creation_times, now - e.2 ≤ s.ttl := by
  intro e he
  rw [prune_expired_def] at he
  obtain ⟨hmem, hnot⟩ := foldl_delete_mem (expiredIds s now) s hc e he
  by_contra hgt
  push_neg at hgt
  exact hnot (List.mem_filterMap.mpr ⟨e, hmem, by simp [Nat.lt_iff_add_one_le]; omega⟩)

theorem get_creation (s : STM) (identifier : Ident) (now : Nat) :
    (get s identifier now).1.creation_times = (prune_expired s now).creation_times := by
  simp only [get]
  cases lookup (prune_expired s now).items identifier <;> rfl

theorem update_creation (s : STM) (identifier : Ident) (item : Item) (now : Nat) :
    (update s identifier item now).1.creation_times
      = (prune_expired s now).creation_times := by
  unfold update
  dsimp only
  split <;> rfl

theorem search_creation (s : STM) (query : Item) (limit now : Nat) :
    (search s query limit now).1.creation_times
      = (prune_expired s now).creation_times := rfl

theorem setKey_mem {β : Type} {l : List (Ident × β)} {id : Ident} {v : β} {e : Ident × β}
    (h : e ∈ setKey l id v) : e ∈ l ∨ e = (id, v) := by
  unfold setKey at h
  split at h
  · obtain ⟨a, ha, hae⟩ := List.mem_map.mp h
    by_cases h1 : a.1 = id
    · right
      rw [← hae]
      simp [h1]
    · left
      rw [← hae]
      simp only [beq_iff_eq, h1, if_false]
      exact ha
  · rcases List.mem_append.mp h with h1 | h2
    · exact Or.inl h1
    · exact Or.inr (by simpa using h2)

theorem evictAux_creation_subset :
    ∀ (fuel : Nat) (st : STM),
      ∀ e ∈ (evictAux fuel st).creation_times, e ∈ st.creation_times := by
  intro fuel
  induction fuel with
  | zero => intro st e he; exact he
  | succ n ih =>
    intro st e he
    rw [evictAux] at he
    cases hm : findMin st.lru_queue with
    | none => rw [hm] at he; exact he
    | some m =>
      rw [hm] at he
      dsimp only at he
      split at he
      · have hd := delete_creation_subset _ _ e he
        exact hd
      · have hd := ih _ e he
        exact hd

/-- C3 (amended): `add`, `get`, `search` and `update` each prune first, so
in a well-formed store no creation-time entry older than the TTL survives
any of those four calls; `delete` (excluded here, see the counterexample)
removes only the named item and performs no pruning. -/
theorem mutating_reads_prune_expired (s : STM) (item query : Item) (identifier : Ident)
    (limit now : Nat) (hc : keyConsistent s) :
    (∀ e ∈ (add s item now).1.creation_times, now - e.2 ≤ s.ttl) ∧
    (∀ e ∈ (get s identifier now).1.creation_times, now - e.2 ≤ s.ttl) ∧
    (∀ e ∈ (search s query limit now).1.creation_times, now - e.2 ≤ s.ttl) ∧
    (∀ e ∈ (update s identifier item now).1.creation_times, now - e.2 ≤ s.ttl) := by
  refine ⟨?_, ?_, ?_, ?_⟩
  · intro e he
    unfold add at he
    dsimp only at he
    split at he
    · have he2 := evictAux_creation_subset _ _ e he
      dsimp only at he2
      rcases setKey_mem he2 with h1 | h1
      · exact prune_expired_creation_bound s now hc e h1
      · rw [h1]; simp
    · dsimp only at he
      rcases setKey_mem he with h1 | h1
      · exact prune_expired_creation_bound s now hc e h1
      · rw [h1]; simp
  · intro e he
    rw [get_creation] at he
    exact prune_expired_creation_bound s now hc e he
  · intro e he
    rw [search_creation] at he
    exact prune_expired_creation_bound s now hc e he
  · intro e he
    rw [update_creation] at he
    exact prune_expired_creation_bound s now hc e he

theorem mutating_reads_prune_expired_witness :
    keyConsistent c3Mem ∧
      ∀ e ∈ (get c3Mem 0 5).1.creation_times, 5 - e.2 ≤ c3Mem.ttl :=
  ⟨by decide, (mutating_reads_prune_expired c3Mem [] [] 0 10 5 (by decide)).2.1⟩

end ShortTermMemory

namespace ShortTermMemory

theorem prune_expired_noop (s : STM) (now : Nat)
    (h : ∀ e ∈ s.creation_times, now - e.2 ≤ s.ttl) :
    prune_expired s now = s := by
  rw [prune_expired_def]
  have he : expiredIds s now = [] := by
    unfold expiredIds
    rw [List.filterMap_eq_nil_iff]
    intro e hme
    have hb := h e hme
    rw [if_neg (by omega)]
  rw [he]
  rfl

theorem lookup_map_range_ge {β : Type} (f : Nat → β) (a n j : Nat) (hj : a + n ≤ j) :
    lookup ((List.range' a n).map (fun i => (i, f i))) j = none := by
  have hfind : ((List.range' a n).map (fun i => (i, f i))).find? (fun e => e.1 == j)
      = none := by
    rw [List.find?_eq_none]
    intro x hx
    obtain ⟨i, hi, rfl⟩ := List.mem_map.mp hx
    have hm := List.mem_range'_1.mp hi
    simp only [beq_iff_eq]
    omega
  unfold lookup
  rw [hfind]
  rfl

theorem setKey_absent {β : Type} (l : List (Ident × β)) (id : Ident) (v : β)
    (h : lookup l id = none) : setKey l id v = l ++ [(id, v)] := by
  have hck : containsKey l id = false := by
    unfold containsKey
    rw [h]
    rfl
  unfold setKey
  simp [hck]

theorem lookup_map_range_head {β : Type} (f : Nat → β) (a n : Nat) :
    lookup ((List.range' a (n + 1)).map (fun i => (i, f i))) a = some (f a) := by
  rw [List.range'_succ, List.map_cons]
  unfold lookup
  rw [List.find?_cons_of_pos _ (by simp)]
  rfl

theorem eraseKey_map_range_lt {β : Type} (f : Nat → β) (a n j : Nat) (hj : j < a) :
    eraseKey ((List.range' a n).map (fun i => (i, f i))) j
      = (List.range' a n).map (fun i => (i, f i)) := by
  unfold eraseKey
  rw [List.filter_eq_self.mpr]
  intro x hx
  obtain ⟨i, hi, rfl⟩ := List.mem_map.mp hx
  have hm := List.mem_range'_1.mp hi
  have hne : i ≠ j := Ne.symm (Nat.ne_of_lt (lt_of_lt_of_le hj hm.1))
  simp [hne]

theorem eraseKey_map_range_head {β : Type} (f : Nat → β) (a n : Nat) :
    eraseKey ((List.range' a (n + 1)).map (fun i => (i, f i))) a
      = (List.range' (a + 1) n).map (fun i => (i, f i)) := by
  rw [List.range'_succ, List.map_cons]
  unfold eraseKey
  rw [List.filter_cons]
  rw [if_neg (by simp)]
  exact eraseKey_map_range_lt f (a + 1) n a (by omega)

theorem map_range_concat {β : Type} (f : Nat → β) (a n : Nat) :
    (List.range' a n).map (fun i => (i, f i)) ++ [(a + n, f (a + n))]
      = (List.range' a (n + 1)).map (fun i => (i, f i)) := by
  rw [List.range'_concat, List.map_append]
  simp

theorem findMin_cons (e : Nat × Ident) (l : List (Nat × Ident)) :
    findMin (e :: l) = match findMin l with
      | none => some e
      | some m => if pairLe e m then some e else some m := rfl

theorem findMin_map_range (a n : Nat) :
    findMin ((List.range' a (n + 1)).map (fun i => (i, i))) = some (a, a) := by
  induction n generalizing a with
  | zero => rfl
  | succ m ih =>
    rw [List.range'_succ, List.map_cons, findMin_cons, ih (a + 1)]
    dsimp only
    rw [if_pos (by unfold pairLe; simp)]

end ShortTermMemory

namespace ShortTermMemory

def runAdds (capacity ttl : Nat) (payloads : List Item) : STM :=
  payloads.foldl (fun s it => (add s it s.counter).1) (init capacity ttl)

def stmAfter (capacity ttl : Nat) (payloads : List Item) (k : Nat) : STM :=
  { capacity := capacity, ttl := ttl,
    items := (List.range' (k - capacity) (k - (k - capacity))).map
      (fun i => (i, payloads.getD i [])),
    access_times := (List.range' (k - capacity) (k - (k - capacity))).map (fun i => (i, i)),
    creation_times := (List.range' (k - capacity) (k - (k - capacity))).map (fun i => (i, i)),
    lru_queue := (List.range' (k - capacity) (k - (k - capacity))).map (fun i => (i, i)),
    counter := k }

theorem map_range_concat' {β : Type} (f : Nat → β) (a n s : Nat) (hs : a + n = s) :
    (List.range' a n).map (fun i => (i, f i)) ++ [(s, f s)]
      = (List.range' a (n + 1)).map (fun i => (i, f i)) := by
  subst hs
  exact map_range_concat f a n

theorem evictAux_succ (n : Nat) (s : STM) :
    evictAux (n + 1) s = match findMin s.lru_queue with
      | none => s
      | some m =>
        if containsKey s.items m.2 then
          (delete { s with lru_queue := s.lru_queue.erase m } m.2).1
        else evictAux n { s with lru_queue := s.lru_queue.erase m } := rfl

theorem add_step (capacity ttl : Nat) (payloads : List Item) (k : Nat)
    (httl : k ≤ ttl) :
    (add (stmAfter capacity ttl payloads k) (payloads.getD k []) k).1
      = stmAfter capacity ttl payloads (k + 1) := by
  have hprune : prune_expired (stmAfter capacity ttl payloads k) k
      = stmAfter capacity ttl payloads k :=
    prune_expired_noop _ _ (fun e _ => le_trans (Nat.sub_le _ _) httl)
  have hsl : (k - capacity) + (k - (k - capacity)) = k := by omega
  unfold add
  rw [hprune]
  dsimp only
  simp only [stmAfter]
  rw [setKey_absent _ _ _ (lookup_map_range_ge _ _ _ _ (le_of_eq hsl)),
      setKey_absent _ _ _ (lookup_map_range_ge _ _ _ _ (le_of_eq hsl))]
  rw [map_range_concat' (fun i => payloads.getD i []) (k - capacity) (k - (k - capacity)) k hsl,
      map_range_concat' (fun i => i) (k - capacity) (k - (k - capacity)) k hsl]
  simp only [List.length_map, List.length_range']
  by_cases hcase : capacity ≤ k
  · have ha : k - (k - capacity) = capacity := by omega
    have hb1 : k + 1 - capacity = (k - capacity) + 1 := by omega
    have hb2 : k + 1 - (k - capacity + 1) = capacity := by omega
    rw [ha, hb1, hb2]
    rw [if_pos (by omega)]
    unfold evict_lru
    simp only [List.length_map, List.length_range']
    rw [evictAux_succ]
    dsimp only
    rw [findMin_map_range (k - capacity) capacity]
    dsimp only
    have hck : containsKey
        ((List.range' (k - capacity) (capacity + 1)).map
          (fun i => (i, payloads.getD i []))) (k - capacity) = true := by
      unfold containsKey
      rw [lookup_map_range_head]
      rfl
    rw [if_pos hck]
    unfold delete
    dsimp only
    rw [if_pos hck]
    dsimp only
    rw [eraseKey_map_range_head (fun i => payloads.getD i []) (k - capacity) capacity,
        eraseKey_map_range_head (fun i => i) (k - capacity) capacity]
    rw [List.range'_succ, List.map_cons, List.erase_cons_head]
  · have ha0 : k - capacity = 0 := by omega
    have hm0 : k - (k - capacity) = k := by omega
    have ha1 : k + 1 - capacity = 0 := by omega
    have hm1 : k + 1 - (k + 1 - capacity) = k + 1 := by omega
    rw [ha0, hm0, ha1, hm1] at *
    rw [if_neg (by omega)]

end ShortTermMemory

namespace ShortTermMemory

theorem runAdds_from (capacity ttl : Nat) (payloads : List Item)
    (httl : payloads.length ≤ ttl + 1) :
    ∀ (n k : Nat), k + n = payloads.length →
      (payloads.drop k).foldl (fun s it => (add s it s.counter).1)
          (stmAfter capacity ttl payloads k)
        = stmAfter capacity ttl payloads payloads.length := by
  intro n
  induction n with
  | zero =>
    intro k hk
    rw [List.drop_eq_nil_of_le (by omega)]
    rw [List.foldl_nil]
    rw [show k = payloads.length from by omega]
  | succ m ih =>
    intro k hk
    have hklt : k < payloads.length := by omega
    rw [List.drop_eq_getElem_cons hklt, List.foldl_cons]
    have hget : payloads[k] = payloads.getD k [] :=
      (List.getD_eq_getElem payloads [] hklt).symm
    have hcounter : (stmAfter capacity ttl payloads k).counter = k := rfl
    rw [hcounter, hget, add_step capacity ttl payloads k (by omega)]
    exact ih (k + 1) (by omega)

theorem stmAfter_zero (capacity ttl : Nat) (payloads : List Item) :
    stmAfter capacity ttl payloads 0 = init capacity ttl := by
  unfold stmAfter init
  rw [show (0 : Nat) - capacity = 0 from by omega]
  rfl

/-- C2: starting from a fresh store of any capacity `C ≥ 1`, a sequence of
`n > C` `add` calls (at distinct increasing times, with no intervening
reads and no TTL expiry, i.e. `n ≤ ttl + 1`) leaves the store holding
exactly the `C` most recently inserted items: identifiers `n - C` to
`n - 1` with their payloads, and nothing else. -/
theorem adds_only_keeps_most_recent (capacity ttl : Nat) (payloads : List Item)
    (hcap : 1 ≤ capacity) (hlen : capacity < payloads.length)
    (httl : payloads.length ≤ ttl + 1) :
    (runAdds capacity ttl payloads).items
        = (List.range' (payloads.length - capacity) capacity).map
            (fun i => (i, payloads.getD i [])) ∧
      (runAdds capacity ttl payloads).items.length = capacity := by
  have h0 : runAdds capacity ttl payloads
      = stmAfter capacity ttl payloads payloads.length := by
    have hh := runAdds_from capacity ttl payloads httl payloads.length 0 (by omega)
    rw [List.drop_zero, stmAfter_zero] at hh
    exact hh
  have hfin : payloads.length - (payloads.length - capacity) = capacity := by omega
  constructor
  · rw [h0]
    unfold stmAfter
    rw [hfin]
  · rw [h0]
    unfold stmAfter
    rw [hfin]
    simp

theorem adds_only_keeps_most_recent_witness :
    ((1 : Nat) ≤ 2 ∧ 2 < 3 ∧ 3 ≤ 3600 + 1) ∧
      (runAdds 2 3600 [[("name", "A")], [("name", "B")], [("name", "C")]]).items
        = [(1, [("name", "B")]), (2, [("name", "C")])] := by
  refine ⟨by omega, ?_⟩
  rw [(adds_only_keeps_most_recent 2 3600
    [[("name", "A")], [("name", "B")], [("name", "C")]]
    (by decide) (by decide) (by decide)).1]
  rfl

end ShortTermMemory
